import Mathlib

/-!
Shallow embedding of the financial-news-sentiment-analyzer pipeline.

Numeric values are modelled by `ℚ` (the source computes in floating point;
the claims under study are structural: which results are defined/undefined,
which rows contribute, join semantics, upsert semantics).  A pandas `NaN`
cell is modelled by `Option`: `none` is NaN/NA, `some x` a numeric value.
A Pearson coefficient `cov/(sx*sy)` involves a square root, which is not
rational; a defined coefficient is therefore represented exactly by the
triple `(covariance, variance X, variance Y)` (which determines it), and an
undefined (NaN) coefficient by `none`.
-/

/-- Arithmetic mean of a list of rationals (`Series.mean`); division by a
zero length follows Lean's `x / 0 = 0` convention and is only ever used on
nonempty lists by the embedded code paths. -/
def ratMean (xs : List ℚ) : ℚ := xs.sum / (xs.length : ℚ)

/-- Sample variance with `ddof = 1` (the pandas default used by
`DataFrame.corr`): `Σ (x - mean)² / (n - 1)`. -/
def svar (xs : List ℚ) : ℚ :=
  ((xs.map (fun x => (x - ratMean xs) ^ 2)).sum) / ((xs.length : ℚ) - 1)

/-- Sample covariance with `ddof = 1` of a paired series. -/
def scovar (ps : List (ℚ × ℚ)) : ℚ :=
  ((ps.map (fun p =>
      (p.1 - ratMean (ps.map Prod.fst)) * (p.2 - ratMean (ps.map Prod.snd)))).sum)
    / ((ps.length : ℚ) - 1)

/-- Result of pandas Pearson correlation on a paired series after pairwise
NaN deletion: `NaN` (`none`) when fewer than two pairs exist or either
series has zero variance, otherwise the (exactly represented) coefficient
`(cov, var X, var Y)`. -/
def pearson (ps : List (ℚ × ℚ)) : Option (ℚ × ℚ × ℚ) :=
  if ps.length < 2 then none
  else if svar (ps.map Prod.fst) = 0 ∨ svar (ps.map Prod.snd) = 0 then none
  else some (scovar ps, svar (ps.map Prod.fst), svar (ps.map Prod.snd))

/-- One row of the combined DataFrame handed to
`calculate_sentiment_price_correlation`: columns `ticker`, `date`,
`adj_close`, `sentiment_score`.  Dates are day numbers. -/
structure Row where
  ticker : String
  date : Int
  adj_close : ℚ
  sentiment_score : ℚ
deriving DecidableEq, Repr

def dRow : Row := ⟨"", 0, 0, 0⟩

/-- Lexicographic strict comparison on character lists (the order numpy uses
to sort string keys). -/
def charsLt : List Char → List Char → Bool
  | [], [] => false
  | [], _ :: _ => true
  | _ :: _, [] => false
  | a :: as, b :: bs =>
    if a.toNat < b.toNat then true
    else if b.toNat < a.toNat then false
    else charsLt as bs

/-- Strict lexicographic order on strings. -/
def strLt (a b : String) : Bool := charsLt a.data b.data

/-- Row order used by `df.sort_values(by=['ticker', 'date'])`:
lexicographic on the key `(ticker, date)`. -/
def rowLE (a b : Row) : Prop :=
  strLt a.ticker b.ticker = true ∨ (a.ticker = b.ticker ∧ a.date ≤ b.date)

instance : DecidableRel rowLE := fun a b => by
  unfold rowLE; infer_instance

/-- Strict version of `rowLE` on the `(ticker, date)` key. -/
def rowLT (a b : Row) : Prop :=
  strLt a.ticker b.ticker = true ∨ (a.ticker = b.ticker ∧ a.date < b.date)

/-- `df.sort_values(by=['ticker', 'date'])` on the list of rows. -/
def sortRows (df : List Row) : List Row := List.insertionSort rowLE df

/-- pandas `Series.shift(k)`: position `t` holds the value at `t - k`, NaN
for the first `k` positions. -/
def shiftList (k : Nat) (xs : List ℚ) : List (Option ℚ) :=
  (List.replicate k none ++ xs.map some).take xs.length

/-- pandas `Series.pct_change(periods=k)` on an all-numeric series:
`x[t] / x[t-k] - 1`, NaN for the first `k` positions. -/
def pctChange (k : Nat) (xs : List ℚ) : List (Option ℚ) :=
  (xs.zip (shiftList k xs)).map (fun p => p.2.map (fun prev => p.1 / prev - 1))

/-- The two derived columns of one ticker group, positionally aligned with
the group's rows: `sentiment_lagged = shift(sentiment_lag)` and
`price_change = pct_change(price_change_lag)`. -/
def featureRows (g : List Row) (sLag pLag : Nat) : List (Option ℚ × Option ℚ) :=
  (shiftList sLag (g.map Row.sentiment_score)).zip
    (pctChange pLag (g.map Row.adj_close))

/-- The paired observations that `DataFrame.corr` actually uses for one
ticker group: positions where both derived columns are non-NaN (pandas
deletes NaN pairs pairwise). -/
def laggedPairs (g : List Row) (sLag pLag : Nat) : List (ℚ × ℚ) :=
  (featureRows g sLag pLag).filterMap (fun p =>
    match p with
    | (some s, some c) => some (s, c)
    | _ => none)

/-- Grouped branch of `calculate_sentiment_price_correlation`: sort by
`(ticker, date)`, build the per-group lagged columns, and return one
(possibly NaN) Pearson coefficient per distinct ticker, keyed by ticker in
ascending order (pandas `groupby` sorts its keys and collects all rows with
a given key). -/
def tickerCorrelations (df : List Row) (sLag pLag : Nat) :
    List (String × Option (ℚ × ℚ × ℚ)) :=
  let sorted := sortRows df
  ((sorted.map Row.ticker).dedup).map (fun tk =>
    (tk, pearson (laggedPairs (sorted.filter (fun r => r.ticker == tk)) sLag pLag)))

/-!  ### Sentiment aggregation (`src/sentiment.py`)  -/

/-- One element of `headlines_data`: a record that may or may not carry a
`'datetime'` cell (a timestamp = (day, time-of-day)) and a `'headline'`
cell.  A missing cell is a NaN in the DataFrame built from the records. -/
structure RawRecord where
  datetime : Option (Int × Int)
  headline : Option String
deriving DecidableEq, Repr

/-- `analyze_sentiment`, parameterized by the external VADER analyzer
(`vader t = none` models `polarity_scores` raising, caught and turned into
`pd.NA`).  An empty text maps to `0.0` before the analyzer is consulted; a
missing (NaN) headline cell is not caught by `if not text:` (NaN is truthy
in Python) and makes `polarity_scores` raise, yielding NA. -/
def analyze_sentiment (vader : String → Option ℚ) (text : Option String) : Option ℚ :=
  match text with
  | some t => if t.isEmpty then some 0 else vader t
  | none => none

/-- Ascending sort on day numbers (pandas `groupby` returns its keys in
sorted order). -/
def sortInts (l : List Int) : List Int := List.insertionSort (· ≤ ·) l

/-- `df.groupby('date')['sentiment_score'].mean()` on a list of
(date, score) rows: one entry per distinct date, keys ascending, value the
arithmetic mean of the scores carrying that date. -/
def groupMeanByDate (l : List (Int × ℚ)) : List (Int × ℚ) :=
  (sortInts (l.map Prod.fst).dedup).map (fun d =>
    (d, ratMean ((l.filter (fun x => x.1 == d)).map Prod.snd)))

/-- The frame after `df['date'] = ...`, `df['sentiment_score'] = ...` and
`df.dropna(subset=['sentiment_score'])`: each surviving row keeps its
(possibly NaT) date cell and its numeric score. -/
def keptRows (vader : String → Option ℚ) (hs : List RawRecord) :
    List (Option Int × ℚ) :=
  (hs.map (fun r =>
      (r.datetime.map Prod.fst, analyze_sentiment vader r.headline))).filterMap
    (fun rc => rc.2.map (fun sc => (rc.1, sc)))

/-- `get_daily_sentiment`: bail out to an empty series when the input is
empty or a required column is absent (a column exists iff some record
carries the key), score each headline, drop rows whose score is NA, bail
out if nothing survives, then group by date — pandas `groupby` also
silently drops rows whose date cell is NaT — and take per-date means. -/
def get_daily_sentiment (vader : String → Option ℚ) (hs : List RawRecord) :
    List (Int × ℚ) :=
  if hs.isEmpty then []
  else if !(hs.any (fun r => r.datetime.isSome)) || !(hs.any (fun r => r.headline.isSome)) then []
  else if (keptRows vader hs).isEmpty then []
  else groupMeanByDate
    ((keptRows vader hs).filterMap (fun rc => rc.1.map (fun d => (d, rc.2))))

/-- The (date, score) rows that survive `get_daily_sentiment`'s dropping,
written directly: a record contributes iff it has a date and its headline
scores to a numeric value — with no check that the value lies in [-1, 1]. -/
def datedScores (vader : String → Option ℚ) (hs : List RawRecord) :
    List (Int × ℚ) :=
  hs.filterMap (fun r =>
    match r.datetime, analyze_sentiment vader r.headline with
    | some dt, some v => some (dt.1, v)
    | _, _ => none)

/-- The scores contributing to date `d`, for stating the per-date mean. -/
def scoresOn (vader : String → Option ℚ) (hs : List RawRecord) (d : Int) :
    List ℚ :=
  hs.filterMap (fun r =>
    if r.datetime.map Prod.fst = some d then analyze_sentiment vader r.headline
    else none)

/-!  ### Pipeline per-ticker processing and merge (`run_pipeline.py`)  -/

/-- The `pd.merge(price_data, sentiment_df, on='date', how='inner')` step:
each output row is a price row paired with a same-dated sentiment row
(left-frame key order). -/
def innerMergeOnDate (price sent : List (Int × ℚ)) : List (Int × ℚ × ℚ) :=
  price.flatMap (fun pr =>
    (sent.filter (fun sr => sr.1 == pr.1)).map (fun sr => (pr.1, pr.2, sr.2)))

/-- The price DataFrame as `run_pipeline.py` receives it: its index values
(the trading days), whether that index is a `DatetimeIndex`, the index's
name, the extra column a `reset_index()` may have produced (name and
values), and the `adj_close` column. -/
structure PriceFrame where
  indexVals : List Int
  indexIsDatetime : Bool
  indexName : Option String
  dateCol : Option (String × List Int)
  adj_close : List ℚ
deriving DecidableEq

/-- The frame `get_stock_data` returns on success (`price_fetcher.py`
lines 32–34): one `adj_close` column, and `price_df.index =
price_df.index.date` replaces the `DatetimeIndex` by a plain object index
carrying the dates and **no name**. -/
def stockDataFrame (dates : List Int) (prices : List ℚ) : PriceFrame :=
  { indexVals := dates
    indexIsDatetime := false
    indexName := none
    dateCol := none
    adj_close := prices }

/-- `reset_index()`: the index moves into a data column named after the
index (or 'index' when the index is unnamed) and the frame gets a fresh
unnamed range index. -/
def resetIndex (pf : PriceFrame) : PriceFrame :=
  { indexVals := (List.range pf.adj_close.length).map Int.ofNat
    indexIsDatetime := false
    indexName := none
    dateCol := some (pf.indexName.getD "index", pf.indexVals)
    adj_close := pf.adj_close }

/-- `price_data['date']`: the column lookup performed at
`run_pipeline.py` line 93; `none` is a raised `KeyError`. -/
def dateColumn (pf : PriceFrame) : Option (List Int) :=
  match pf.dateCol with
  | some (nm, vals) => if nm = "date" then some vals else none
  | none => none

/-- Lines 88–97 of `run_pipeline.py`: reset the price frame's index when it
is a `DatetimeIndex` or is named 'date' (line 90; note `and` binds tighter
than `or`, and `isinstance(_, pd.Index)` is true of every index), then read
the 'date' column — an uncaught `KeyError` when it does not exist — and
inner-merge with the sentiment series on date, adding the ticker column. -/
def combineStep (pf : PriceFrame) (daily : List (Int × ℚ)) (tk : String) :
    Except String (List Row) :=
  let pf' := if pf.indexIsDatetime || (pf.indexName == some "date")
             then resetIndex pf else pf
  match dateColumn pf' with
  | none => Except.error "KeyError: date"
  | some ds =>
      Except.ok ((innerMergeOnDate (ds.zip pf'.adj_close) daily).map (fun r =>
        { ticker := tk, date := r.1, adj_close := r.2.1, sentiment_score := r.2.2 : Row }))

/-- The body of the per-ticker loop in `run_pipeline.py`, with the external
collaborators supplied as data: scraped headlines and the fetched price
frame come in as inputs.  Each `continue` is `Except.ok none`; an uncaught
exception in the body is `Except.error`; on success the emitted combined
rows are returned. -/
def processTicker (vader : String → Option ℚ) (tk : String)
    (headlines : List RawRecord) (pf : PriceFrame) :
    Except String (Option (List Row)) :=
  if headlines.isEmpty then Except.ok none
  else if (get_daily_sentiment vader headlines).isEmpty then Except.ok none
  else if pf.adj_close.isEmpty then Except.ok none
  else
    match combineStep pf (get_daily_sentiment vader headlines) tk with
    | Except.error e => Except.error e
    | Except.ok combined =>
        if combined.isEmpty then Except.ok none
        else Except.ok (some combined)

/-- The whole per-ticker loop: `all_processed_data` collects the combined
frames of the tickers that were not skipped; an uncaught exception in one
ticker's body propagates and aborts the batch (no later ticker runs, and
the accumulated frames never reach the analysis stage). -/
def runPipeline (vader : String → Option ℚ) :
    List (String × List RawRecord × PriceFrame) →
      Except String (List (List Row))
  | [] => Except.ok []
  | i :: rest =>
    match processTicker vader i.1 i.2.1 i.2.2 with
    | Except.error e => Except.error e
    | Except.ok none => runPipeline vader rest
    | Except.ok (some rows) =>
        match runPipeline vader rest with
        | Except.error e => Except.error e
        | Except.ok acc => Except.ok (rows :: acc)

/-!  ### Persistence (`src/database.py`)  -/

/-- The stored table: rows keyed by `(ticker, date)` carrying
`(adj_close, sentiment_score)`. -/
abbrev DBTable := List ((String × Int) × (ℚ × ℚ))

/-- One `INSERT ... ON CONFLICT (ticker, date) DO UPDATE SET adj_close =
EXCLUDED.adj_close, sentiment_score = EXCLUDED.sentiment_score`: on a key
conflict the stored values are overwritten, otherwise the row is
appended. -/
def upsertRow (tbl : DBTable) (tk : String) (d : Int) (price sent : ℚ) :
    DBTable :=
  if tbl.any (fun e => e.1 == (tk, d)) then
    tbl.map (fun e => if e.1 == (tk, d) then (e.1, (price, sent)) else e)
  else tbl ++ [((tk, d), (price, sent))]

/-- `insert_sentiment_data`: the whole batch goes through `execute_values`
as one `INSERT ... ON CONFLICT DO UPDATE` statement.  When two rows of the
batch share a (ticker, date) key, PostgreSQL raises a cardinality violation
("ON CONFLICT DO UPDATE command cannot affect row a second time"); the
function's except-handler rolls the transaction back, leaving the table
unchanged.  Otherwise every row is upserted. -/
def insert_sentiment_data (tbl : DBTable) (rows : List Row) : DBTable :=
  if (rows.map (fun r => (r.ticker, r.date))).Nodup then
    rows.foldl (fun t r => upsertRow t r.ticker r.date r.adj_close r.sentiment_score) tbl
  else tbl

/-!  ### Heap-level view of `calculate_sentiment_price_correlation`
(for the frame-effect claim).

Python DataFrames are heap objects mutated through references; a `Heap` is
a list of frame objects and a Python variable holding a DataFrame is an
index into it.  A frame is its base rows plus the derived columns that
in-place column assignment has attached to it. -/

structure Frame where
  rows : List Row
  extraCols : List (String × List (Option ℚ))
deriving DecidableEq

def emptyFrame : Frame := ⟨[], []⟩

abbrev Heap := List Frame

def heapGet (s : Heap) (i : Nat) : Frame := s.getD i emptyFrame

/-- The whole-frame `groupby('ticker')[...].pct_change(periods=k)` column:
the value at position `t` of the sorted frame is the group-wise
`pct_change` of `adj_close` taken at `t`'s position within its ticker's
rows. -/
def priceChangeCol (rows : List Row) (k : Nat) : List (Option ℚ) :=
  (List.range rows.length).map (fun t =>
    let tk := (rows.getD t dRow).ticker
    (pctChange k ((rows.filter (fun r => r.ticker == tk)).map Row.adj_close)).getD
      (((rows.take t).filter (fun r => r.ticker == tk)).length) none)

/-- The whole-frame `groupby('ticker')['sentiment_score'].shift(n)`
column. -/
def sentimentLaggedCol (rows : List Row) (n : Nat) : List (Option ℚ) :=
  (List.range rows.length).map (fun t =>
    let tk := (rows.getD t dRow).ticker
    (shiftList n ((rows.filter (fun r => r.ticker == tk)).map Row.sentiment_score)).getD
      (((rows.take t).filter (fun r => r.ticker == tk)).length) none)

/-- `groupby('ticker')[['sentiment_lagged', 'price_change']].corr()` read
off the two stored columns of a frame, unstacked to one coefficient per
ticker. -/
def groupedCorrOfFrame (f : Frame) : List (String × Option (ℚ × ℚ × ℚ)) :=
  let sl := (List.lookup "sentiment_lagged" f.extraCols).getD []
  let pc := (List.lookup "price_change" f.extraCols).getD []
  ((f.rows.map Row.ticker).dedup).map (fun tk =>
    (tk, pearson
      (((List.range f.rows.length).filter
          (fun t => (f.rows.getD t dRow).ticker == tk)).filterMap
        (fun t =>
          match sl.getD t none, pc.getD t none with
          | some s, some c => some (s, c)
          | _, _ => none))))

/-- Heap-level body of `calculate_sentiment_price_correlation` (grouped
mode), lines 40–53 of `src/analysis.py`: rebind the local `df` to
`df.sort_values(by=['ticker', 'date']).copy()` — a freshly allocated
object — then attach the two derived columns to that object in place, then
compute the grouped correlation from it.  Returns the final heap and the
returned value. -/
def corrBody (s : Heap) (p : Nat) (sLag pLag : Nat) :
    Heap × List (String × Option (ℚ × ℚ × ℚ)) :=
  let caller := heapGet s p
  let q := s.length
  let s1 := s ++ [⟨sortRows caller.rows, caller.extraCols⟩]
  let f1 := heapGet s1 q
  let s2 := s1.set q ⟨f1.rows, f1.extraCols ++ [("price_change", priceChangeCol f1.rows pLag)]⟩
  let f2 := heapGet s2 q
  let s3 := s2.set q ⟨f2.rows, f2.extraCols ++ [("sentiment_lagged", sentimentLaggedCol f2.rows sLag)]⟩
  (s3, groupedCorrOfFrame (heapGet s3 q))

/-!  ### Helper lemmas  -/

lemma lookup_map_overwrite (key : String × Int) (p v : ℚ) :
    ∀ tbl : DBTable, tbl.any (fun e => e.1 == key) = true →
      List.lookup key
        (tbl.map (fun e => if (e.1 == key) = true then (e.1, (p, v)) else e))
        = some (p, v) := by
  intro tbl
  induction tbl with
  | nil => intro h; simp at h
  | cons e es ih =>
    intro h
    obtain ⟨k, pv⟩ := e
    by_cases he : ((k, pv).1 == key) = true
    · have he' : k = key := beq_iff_eq.mp he
      subst he'
      simp [List.lookup_cons]
    · have hes : es.any (fun e => e.1 == key) = true := by
        simp only [List.any_cons, Bool.or_eq_true] at h
        rcases h with h1 | h1
        · exact absurd h1 he
        · exact h1
      have hne : (key == k) = false := by
        apply beq_eq_false_iff_ne.mpr
        intro hc
        exact he (beq_iff_eq.mpr hc.symm)
      simp only [List.map_cons, if_neg he, List.lookup_cons, hne]
      exact ih hes

lemma lookup_append_fresh (key : String × Int) (pv : ℚ × ℚ) :
    ∀ tbl : DBTable, tbl.any (fun e => e.1 == key) = false →
      List.lookup key (tbl ++ [(key, pv)]) = some pv := by
  intro tbl
  induction tbl with
  | nil => simp [List.lookup_cons]
  | cons e es ih =>
    intro h
    obtain ⟨k, pv'⟩ := e
    simp only [List.any_cons, Bool.or_eq_false_iff] at h
    have hne : (key == k) = false := by
      apply beq_eq_false_iff_ne.mpr
      intro hc
      rw [hc] at h
      simp at h
    rw [List.cons_append, List.lookup_cons]
    simp only [hne]
    exact ih (by simp [h.2])

lemma lookup_upsertRow (tbl : DBTable) (tk : String) (d : Int) (p v : ℚ) :
    List.lookup (tk, d) (upsertRow tbl tk d p v) = some (p, v) := by
  unfold upsertRow
  by_cases h : tbl.any (fun e => e.1 == (tk, d)) = true
  · rw [if_pos h]
    exact lookup_map_overwrite (tk, d) p v tbl h
  · rw [if_neg h]
    exact lookup_append_fresh (tk, d) (p, v) tbl (Bool.not_eq_true _ ▸ Bool.of_not_eq_true h)

lemma any_key_upsertRow (tbl : DBTable) (tk : String) (d : Int) (p v : ℚ) :
    (upsertRow tbl tk d p v).any (fun e => e.1 == (tk, d)) = true := by
  unfold upsertRow
  by_cases h : tbl.any (fun e => e.1 == (tk, d)) = true
  · rw [if_pos h]
    rw [List.any_map]
    have hfun : ((fun e : (String × Int) × ℚ × ℚ => e.1 == (tk, d)) ∘
        (fun e => if (e.1 == (tk, d)) = true then (e.1, (p, v)) else e))
        = fun e => e.1 == (tk, d) := by
      funext e
      by_cases he : e.1 = (tk, d)
      · simp [Function.comp, he]
      · simp [Function.comp, he]
    rw [hfun, h]
  · rw [if_neg h]
    rw [List.any_append]
    simp

lemma upsertRow_idem (tbl : DBTable) (tk : String) (d : Int) (p v : ℚ) :
    upsertRow (upsertRow tbl tk d p v) tk d p v = upsertRow tbl tk d p v := by
  conv_lhs => rw [upsertRow]
  rw [if_pos (any_key_upsertRow tbl tk d p v)]
  unfold upsertRow
  by_cases h : tbl.any (fun e => e.1 == (tk, d)) = true
  · rw [if_pos h, List.map_map]
    apply List.map_congr_left
    intro e _
    by_cases he : e.1 = (tk, d)
    · simp [Function.comp, he]
    · simp [Function.comp, he]
  · rw [if_neg h, List.map_append]
    have hall := List.any_eq_false.mp (Bool.eq_false_iff.mpr h)
    have h1 : List.map (fun e => if (e.1 == (tk, d)) = true then (e.1, (p, v)) else e) tbl
        = tbl := by
      calc List.map (fun e => if (e.1 == (tk, d)) = true then (e.1, (p, v)) else e) tbl
          = List.map (fun e => e) tbl := by
            apply List.map_congr_left
            intro e he
            exact if_neg (hall e he)
        _ = tbl := List.map_id' tbl
    rw [h1]
    simp

/-- C7: upserting the same combined record through `insert_sentiment_data`
in two successive batches leaves the same stored table as upserting it
once, and when a later batch writes the same `(ticker, date)` key the
stored price and sentiment are the last writer's.  (Two rows with one key
inside a single batch instead make the statement error and roll back;
the upsert operation of the claim is the per-record statement, issued once
per call.) -/
theorem upsert_idempotent_last_write_wins (tbl : DBTable) (tk : String)
    (d : Int) (p v p' v' : ℚ) :
    insert_sentiment_data (insert_sentiment_data tbl [⟨tk, d, p, v⟩]) [⟨tk, d, p, v⟩]
        = insert_sentiment_data tbl [⟨tk, d, p, v⟩]
    ∧ List.lookup (tk, d)
        (insert_sentiment_data (insert_sentiment_data tbl [⟨tk, d, p, v⟩])
          [⟨tk, d, p', v'⟩])
        = some (p', v') := by
  have hsingle : ∀ (t : DBTable) (r : Row),
      insert_sentiment_data t [r]
        = upsertRow t r.ticker r.date r.adj_close r.sentiment_score := by
    intro t r
    unfold insert_sentiment_data
    rw [if_pos (by simp)]
    rfl
  constructor
  · simp only [hsingle]
    exact upsertRow_idem tbl tk d p v
  · simp only [hsingle]
    exact lookup_upsertRow _ tk d p' v'

/-- C10: an empty `headlines_data`, or one none of whose records carries a
`'datetime'` cell, or none a `'headline'` cell (so the built DataFrame
lacks that column), makes `get_daily_sentiment` return the empty
(float-typed) series rather than raise. -/
theorem get_daily_sentiment_degenerate_empty (vader : String → Option ℚ)
    (hs : List RawRecord)
    (h : hs = [] ∨ (∀ r ∈ hs, r.datetime = none) ∨ (∀ r ∈ hs, r.headline = none)) :
    get_daily_sentiment vader hs = [] := by
  rcases h with h | h | h
  · subst h; rfl
  · unfold get_daily_sentiment
    by_cases he : hs.isEmpty
    · rw [if_pos he]
    · rw [if_neg he]
      have hany : hs.any (fun r => r.datetime.isSome) = false := by
        rw [List.any_eq_false]
        intro r hr
        rw [h r hr]
        simp
      simp [hany]
  · unfold get_daily_sentiment
    by_cases he : hs.isEmpty
    · rw [if_pos he]
    · rw [if_neg he]
      have hany : hs.any (fun r => r.headline.isSome) = false := by
        rw [List.any_eq_false]
        intro r hr
        rw [h r hr]
        simp
      simp [hany]

theorem get_daily_sentiment_degenerate_empty_witness :
    get_daily_sentiment (fun _ => none) [⟨none, some "x"⟩] = [] :=
  get_daily_sentiment_degenerate_empty (fun _ => none) [⟨none, some "x"⟩]
    (Or.inr (Or.inl (by intro r hr; simp at hr; rw [hr])))

/-- C6 (code bug): the first three missing-data conditions — no headlines,
empty daily sentiment, no price rows — do skip only that ticker and the
batch continues; but a ticker passing all three never reaches the
empty-overlap skip: the price frame `get_stock_data` returns has an
unnamed, non-datetime index, so the line-90 guard cannot fire, line 93's
`price_data['date']` raises an uncaught KeyError, and the whole batch
aborts. -/
theorem ticker_skipped_on_missing_data (vader : String → Option ℚ)
    (tk : String) (headlines : List RawRecord) (dates : List Int)
    (prices : List ℚ)
    (rest : List (String × List RawRecord × PriceFrame)) :
    ((headlines = [] ∨ get_daily_sentiment vader headlines = [] ∨ prices = []) →
      processTicker vader tk headlines (stockDataFrame dates prices) = Except.ok none
      ∧ runPipeline vader ((tk, headlines, stockDataFrame dates prices) :: rest)
          = runPipeline vader rest)
    ∧ (headlines ≠ [] → get_daily_sentiment vader headlines ≠ [] → prices ≠ [] →
      processTicker vader tk headlines (stockDataFrame dates prices)
          = Except.error "KeyError: date"
      ∧ runPipeline vader ((tk, headlines, stockDataFrame dates prices) :: rest)
          = Except.error "KeyError: date") := by
  constructor
  · intro h
    have hp : processTicker vader tk headlines (stockDataFrame dates prices)
        = Except.ok none := by
      rcases h with h | h | h
      · simp [processTicker, h]
      · simp [processTicker, h]
      · simp [processTicker, stockDataFrame, h]
    refine ⟨hp, ?_⟩
    rw [runPipeline]
    rw [show (processTicker vader (tk, headlines, stockDataFrame dates prices).1
        (tk, headlines, stockDataFrame dates prices).2.1
        (tk, headlines, stockDataFrame dates prices).2.2) = Except.ok none from hp]
  · intro h1 h2 h3
    have hp : processTicker vader tk headlines (stockDataFrame dates prices)
        = Except.error "KeyError: date" := by
      unfold processTicker
      rw [if_neg (fun hc => h1 (List.isEmpty_iff.mp hc)),
        if_neg (fun hc => h2 (List.isEmpty_iff.mp hc))]
      have hac : (stockDataFrame dates prices).adj_close = prices := rfl
      rw [hac, if_neg (fun hc => h3 (List.isEmpty_iff.mp hc))]
      rfl
    refine ⟨hp, ?_⟩
    rw [runPipeline]
    rw [show (processTicker vader (tk, headlines, stockDataFrame dates prices).1
        (tk, headlines, stockDataFrame dates prices).2.1
        (tk, headlines, stockDataFrame dates prices).2.2)
        = Except.error "KeyError: date" from hp]

lemma innerMerge_dates_toFinset (price sent : List (Int × ℚ)) :
    ((innerMergeOnDate price sent).map (fun r => r.1)).toFinset
      = (price.map Prod.fst).toFinset ∩ (sent.map Prod.fst).toFinset := by
  ext d
  simp only [List.mem_toFinset, Finset.mem_inter, List.mem_map,
    innerMergeOnDate, List.mem_flatMap, List.mem_filter]
  constructor
  · rintro ⟨r, ⟨pr, hpr, sr, ⟨hsr, hkey⟩, hmk⟩, hd⟩
    have hkey' : sr.1 = pr.1 := beq_iff_eq.mp hkey
    subst hmk
    simp only at hd
    subst hd
    exact ⟨⟨pr, hpr, rfl⟩, ⟨sr, hsr, hkey'⟩⟩
  · rintro ⟨⟨pr, hpr, hprd⟩, ⟨sr, hsr, hsrd⟩⟩
    exact ⟨(pr.1, pr.2, sr.2),
      ⟨pr, hpr, sr, ⟨hsr, beq_iff_eq.mpr (hsrd.trans hprd.symm)⟩, rfl⟩, hprd⟩

/-- C3 (code bug): line 97's `pd.merge` does produce exactly the
intersection of the two date sets — the claimed aligner semantics — but the
program never reaches it: every price frame `get_stock_data` returns has an
unnamed, non-datetime index (`price_fetcher.py` line 34), the line-90 guard
therefore never fires, no 'date' column exists, and line 93's
`price_data['date']` raises an uncaught KeyError before the merge.  The
lines 100–102 empty-overlap skip is unreachable. -/
theorem merge_dates_are_intersection (tk : String) (sent : List (Int × ℚ)) :
    (∀ price : List (Int × ℚ),
      ((innerMergeOnDate price sent).map (fun r => r.1)).toFinset
        = (price.map Prod.fst).toFinset ∩ (sent.map Prod.fst).toFinset)
    ∧ (∀ price : List (Int × ℚ),
        (price.map Prod.fst).toFinset ∩ (sent.map Prod.fst).toFinset = ∅ →
        innerMergeOnDate price sent = [])
    ∧ (∀ (dates : List Int) (prices : List ℚ),
        combineStep (stockDataFrame dates prices) sent tk
          = Except.error "KeyError: date") := by
  refine ⟨fun price => innerMerge_dates_toFinset price sent, ?_, ?_⟩
  · intro price hint
    by_contra hne
    obtain ⟨r, hr⟩ := List.exists_mem_of_ne_nil _ hne
    have hmem : r.1 ∈ ((innerMergeOnDate price sent).map (fun r => r.1)).toFinset := by
      simp only [List.mem_toFinset, List.mem_map]
      exact ⟨r, hr, rfl⟩
    rw [innerMerge_dates_toFinset, hint] at hmem
    exact absurd hmem (Finset.not_mem_empty _)
  · intro dates prices
    rfl

lemma withDate_eq_datedScores (vader : String → Option ℚ) (hs : List RawRecord) :
    (keptRows vader hs).filterMap (fun rc => rc.1.map (fun d => (d, rc.2)))
      = datedScores vader hs := by
  unfold keptRows datedScores
  rw [List.filterMap_map, List.filterMap_filterMap]
  congr 1
  funext r
  cases hd : r.datetime with
  | none =>
    cases ha : analyze_sentiment vader r.headline <;>
      simp [Function.comp, hd, ha]
  | some dt =>
    cases ha : analyze_sentiment vader r.headline <;>
      simp [Function.comp, hd, ha]

lemma get_daily_sentiment_eq_groupMean (vader : String → Option ℚ)
    (hs : List RawRecord) :
    get_daily_sentiment vader hs = groupMeanByDate (datedScores vader hs) := by
  unfold get_daily_sentiment
  by_cases h0 : hs.isEmpty
  · rw [if_pos h0]
    have h0' : hs = [] := List.isEmpty_iff.mp h0
    subst h0'
    rfl
  · rw [if_neg h0]
    by_cases hc : (!(hs.any (fun r => r.datetime.isSome))
        || !(hs.any (fun r => r.headline.isSome))) = true
    · rw [if_pos hc]
      have hnil : datedScores vader hs = [] := by
        rw [datedScores, List.filterMap_eq_nil_iff]
        intro r hr
        rw [Bool.or_eq_true] at hc
        rcases hc with h | h
        · have hall : ∀ x ∈ hs, x.datetime = none := by simpa using h
          rw [hall r hr]
        · have hall : ∀ x ∈ hs, x.headline = none := by simpa using h
          rw [hall r hr]
          cases r.datetime <;> rfl
      rw [hnil]
      rfl
    · rw [if_neg hc]
      by_cases hk : (keptRows vader hs).isEmpty
      · rw [if_pos hk]
        have hkept : keptRows vader hs = [] := List.isEmpty_iff.mp hk
        have hnil : datedScores vader hs = [] := by
          rw [← withDate_eq_datedScores, hkept]
          rfl
        rw [hnil]
        rfl
      · rw [if_neg hk, withDate_eq_datedScores]

/-- C5 counterexample: a headline whose score is 2 — outside [-1, 1] — is
not dropped by `get_daily_sentiment`: the date keeps an entry and its mean
is the out-of-range value itself, where the claim predicts the headline is
dropped (which here would leave an empty series). -/
theorem out_of_range_score_not_dropped :
    get_daily_sentiment (fun _ => some 2) [⟨some (5, 0), some "good"⟩] = [(5, 2)]
    ∧ ¬(-1 ≤ (2 : ℚ) ∧ (2 : ℚ) ≤ 1)
    ∧ get_daily_sentiment (fun _ => some 2) [⟨some (5, 0), some "good"⟩] ≠ [] := by
  have hne : "good".isEmpty = false := rfl
  have h1 : get_daily_sentiment (fun _ => some 2) [⟨some (5, 0), some "good"⟩]
      = [(5, 2)] := by
    simp [get_daily_sentiment, keptRows, groupMeanByDate, sortInts,
      analyze_sentiment, ratMean, List.insertionSort, List.orderedInsert, hne]
  refine ⟨h1, by norm_num, by rw [h1]; simp⟩

/-- C5 (amended): `get_daily_sentiment` drops exactly the headlines whose
scoring yields no numeric value (NA) or whose date cell is missing; a
headline with any numeric score — inside or outside [-1, 1] — contributes
it to its date's mean: the output is the per-date group mean of
`datedScores`, which applies no range filter, and every dated, numerically
scored headline lands in `datedScores`. -/
theorem daily_sentiment_drops_only_unscored (vader : String → Option ℚ)
    (hs : List RawRecord) :
    get_daily_sentiment vader hs = groupMeanByDate (datedScores vader hs)
    ∧ (∀ (r : RawRecord) (dt : Int × Int) (v : ℚ), r ∈ hs → r.datetime = some dt →
        analyze_sentiment vader r.headline = some v →
        (dt.1, v) ∈ datedScores vader hs) := by
  refine ⟨get_daily_sentiment_eq_groupMean vader hs, ?_⟩
  intro r dt v hr hdt hv
  unfold datedScores
  exact List.mem_filterMap.mpr ⟨r, hr, by rw [hdt, hv]⟩

lemma filter_datedScores_eq_scoresOn (vader : String → Option ℚ)
    (hs : List RawRecord) (d : Int) :
    ((datedScores vader hs).filter (fun x => x.1 == d)).map Prod.snd
      = scoresOn vader hs d := by
  induction hs with
  | nil => rfl
  | cons r rs ih =>
    unfold datedScores scoresOn at ih ⊢
    rw [List.filterMap_cons, List.filterMap_cons]
    cases hdt : r.datetime with
    | none =>
      cases ha : analyze_sentiment vader r.headline <;> simpa using ih
    | some dt =>
      cases ha : analyze_sentiment vader r.headline with
      | none => simpa using ih
      | some v =>
        by_cases hd : dt.1 = d
        · simpa [hd, ha, List.filter_cons] using ih
        · simpa [hd, ha, List.filter_cons] using ih

lemma neg_card_le_sum (l : List ℚ) (h : ∀ x ∈ l, -1 ≤ x) :
    -(l.length : ℚ) ≤ l.sum := by
  induction l with
  | nil => simp
  | cons a as ih =>
    simp only [List.sum_cons, List.length_cons]
    push_cast
    have h1 := h a (List.mem_cons_self a as)
    have h2 := ih (fun x hx => h x (List.mem_cons_of_mem a hx))
    linarith

lemma sum_le_card (l : List ℚ) (h : ∀ x ∈ l, x ≤ 1) :
    l.sum ≤ (l.length : ℚ) := by
  induction l with
  | nil => simp
  | cons a as ih =>
    simp only [List.sum_cons, List.length_cons]
    push_cast
    have h1 := h a (List.mem_cons_self a as)
    have h2 := ih (fun x hx => h x (List.mem_cons_of_mem a hx))
    linarith

lemma ratMean_bounds (l : List ℚ) (h : ∀ x ∈ l, -1 ≤ x ∧ x ≤ 1) :
    -1 ≤ ratMean l ∧ ratMean l ≤ 1 := by
  cases l with
  | nil => constructor <;> norm_num [ratMean]
  | cons a as =>
    have hpos : (0 : ℚ) < (((a :: as).length : Nat) : ℚ) := by
      exact_mod_cast Nat.succ_pos as.length
    constructor
    · rw [ratMean, le_div_iff₀ hpos]
      have := neg_card_le_sum (a :: as) (fun x hx => (h x hx).1)
      linarith
    · rw [ratMean, div_le_one hpos]
      exact sum_le_card (a :: as) (fun x hx => (h x hx).2)

/-- C4: on a non-degenerate input — every record dated, every headline
scoring to a numeric value in [-1, 1], as the spec's ScoredHeadline
constraint provides — the daily series has exactly one entry per distinct
input date, each value is the arithmetic mean of that date's scores and
lies in [-1, 1]; and an empty input yields an empty series. -/
theorem daily_sentiment_is_per_date_mean (vader : String → Option ℚ)
    (hs : List RawRecord)
    (hv : ∀ r ∈ hs, (∃ dt, r.datetime = some dt) ∧
        ∃ v, analyze_sentiment vader r.headline = some v ∧ -1 ≤ v ∧ v ≤ 1) :
    ((get_daily_sentiment vader hs).map Prod.fst).Nodup
    ∧ (∀ d : Int, d ∈ (get_daily_sentiment vader hs).map Prod.fst ↔
        d ∈ hs.filterMap (fun r => r.datetime.map Prod.fst))
    ∧ (∀ p ∈ get_daily_sentiment vader hs,
        p.2 = ratMean (scoresOn vader hs p.1) ∧ -1 ≤ p.2 ∧ p.2 ≤ 1)
    ∧ (hs = [] → get_daily_sentiment vader hs = []) := by
  have hmaster := get_daily_sentiment_eq_groupMean vader hs
  have hkeys : (get_daily_sentiment vader hs).map Prod.fst
      = sortInts ((datedScores vader hs).map Prod.fst).dedup := by
    rw [hmaster]
    unfold groupMeanByDate
    rw [List.map_map]
    exact List.map_id' _
  have hmemdated : ∀ d : Int,
      d ∈ (datedScores vader hs).map Prod.fst ↔
        d ∈ hs.filterMap (fun r => r.datetime.map Prod.fst) := by
    intro d
    constructor
    · intro hd
      obtain ⟨p, hp, hp1⟩ := List.mem_map.mp hd
      obtain ⟨r, hr, hFr⟩ := List.mem_filterMap.mp hp
      cases hdt : r.datetime with
      | none => rw [hdt] at hFr; simp at hFr
      | some dt =>
        cases ha : analyze_sentiment vader r.headline with
        | none => rw [hdt, ha] at hFr; simp at hFr
        | some v =>
          rw [hdt, ha] at hFr
          simp only [Option.some.injEq] at hFr
          apply List.mem_filterMap.mpr
          refine ⟨r, hr, ?_⟩
          rw [hdt]
          simp only [Option.map_some']
          rw [← hp1, ← hFr]
    · intro hd
      obtain ⟨r, hr, hFr⟩ := List.mem_filterMap.mp hd
      obtain ⟨dt, hdt⟩ := (hv r hr).1
      obtain ⟨v, ha, _, _⟩ := (hv r hr).2
      rw [hdt] at hFr
      simp only [Option.map_some', Option.some.injEq] at hFr
      apply List.mem_map.mpr
      refine ⟨(dt.1, v), List.mem_filterMap.mpr ⟨r, hr, by rw [hdt, ha]⟩, hFr⟩
  refine ⟨?_, ?_, ?_, ?_⟩
  · rw [hkeys]
    exact (List.nodup_dedup _).perm (List.perm_insertionSort _ _).symm
  · intro d
    rw [hkeys]
    unfold sortInts
    rw [(List.perm_insertionSort _ _).mem_iff, List.mem_dedup]
    exact hmemdated d
  · intro p hp
    rw [hmaster] at hp
    unfold groupMeanByDate at hp
    obtain ⟨d, _, hpd⟩ := List.mem_map.mp hp
    have hsc : ∀ x ∈ scoresOn vader hs p.1, -1 ≤ x ∧ x ≤ 1 := by
      intro x hx
      obtain ⟨r, hr, hcond⟩ := List.mem_filterMap.mp hx
      obtain ⟨v, ha, h1, h2⟩ := (hv r hr).2
      by_cases hifc : r.datetime.map Prod.fst = some p.1
      · rw [if_pos hifc, ha] at hcond
        cases hcond
        exact ⟨h1, h2⟩
      · rw [if_neg hifc] at hcond
        cases hcond
    have hp2 : p.2 = ratMean (scoresOn vader hs p.1) := by
      rw [← hpd]
      simp only
      rw [filter_datedScores_eq_scoresOn]
    refine ⟨hp2, ?_⟩
    rw [hp2]
    exact ratMean_bounds _ hsc
  · intro h
    subst h
    rfl

theorem daily_sentiment_is_per_date_mean_witness :
    ((get_daily_sentiment (fun _ => some 0) [⟨some (5, 0), some "x"⟩]).map Prod.fst).Nodup
    ∧ (∀ d : Int, d ∈ (get_daily_sentiment (fun _ => some 0) [⟨some (5, 0), some "x"⟩]).map Prod.fst ↔
        d ∈ ([⟨some (5, 0), some "x"⟩] : List RawRecord).filterMap (fun r => r.datetime.map Prod.fst))
    ∧ (∀ p ∈ get_daily_sentiment (fun _ => some 0) [⟨some (5, 0), some "x"⟩],
        p.2 = ratMean (scoresOn (fun _ => some 0) [⟨some (5, 0), some "x"⟩] p.1)
          ∧ -1 ≤ p.2 ∧ p.2 ≤ 1)
    ∧ (([⟨some (5, 0), some "x"⟩] : List RawRecord) = [] →
        get_daily_sentiment (fun _ => some 0) [⟨some (5, 0), some "x"⟩] = []) :=
  daily_sentiment_is_per_date_mean (fun _ => some 0) [⟨some (5, 0), some "x"⟩]
    (by
      intro r hr
      simp only [List.mem_singleton] at hr
      subst hr
      exact ⟨⟨(5, 0), rfl⟩, 0, rfl, by norm_num, by norm_num⟩)

lemma length_shiftList (k : Nat) (xs : List ℚ) :
    (shiftList k xs).length = xs.length := by
  unfold shiftList
  rw [List.length_take, List.length_append, List.length_replicate, List.length_map]
  omega

lemma getD_shiftList (k : Nat) (xs : List ℚ) (t : Nat) (ht : t < xs.length) :
    (shiftList k xs).getD t none
      = if k ≤ t then some (xs.getD (t - k) 0) else none := by
  unfold shiftList
  rw [List.getD_eq_getElem?_getD, List.getElem?_take, if_pos ht,
    List.getElem?_append, List.length_replicate]
  by_cases hk : k ≤ t
  · have hlt : t - k < xs.length := by omega
    rw [if_neg (by omega), List.getElem?_map, List.getElem?_eq_getElem hlt]
    rw [if_pos hk]
    simp only [Option.map_some', Option.getD_some, Option.some.injEq]
    rw [List.getD_eq_getElem?_getD, List.getElem?_eq_getElem hlt]
    rfl
  · rw [if_pos (by omega), List.getElem?_replicate, if_pos (by omega), if_neg hk]
    rfl

lemma length_pctChange (k : Nat) (xs : List ℚ) :
    (pctChange k xs).length = xs.length := by
  unfold pctChange
  rw [List.length_map, List.length_zip, length_shiftList]
  simp

lemma getD_pctChange (k : Nat) (xs : List ℚ) (t : Nat) (ht : t < xs.length) :
    (pctChange k xs).getD t none
      = if k ≤ t then some (xs.getD t 0 / xs.getD (t - k) 0 - 1) else none := by
  unfold pctChange
  rw [List.getD_eq_getElem?_getD, List.getElem?_map]
  have hz : (xs.zip (shiftList k xs))[t]?
      = some (xs.getD t 0, (shiftList k xs).getD t none) := by
    apply List.getElem?_zip_eq_some.mpr
    constructor
    · rw [List.getElem?_eq_getElem ht]
      simp only [Option.some.injEq]
      rw [List.getD_eq_getElem?_getD, List.getElem?_eq_getElem ht]
      rfl
    · have ht' : t < (shiftList k xs).length := by rw [length_shiftList]; exact ht
      rw [List.getElem?_eq_getElem ht']
      simp only [Option.some.injEq]
      rw [List.getD_eq_getElem?_getD, List.getElem?_eq_getElem ht']
      rfl
  rw [hz]
  simp only [Option.map_some', Option.getD_some]
  rw [getD_shiftList k xs t ht]
  by_cases hk : k ≤ t
  · rw [if_pos hk, if_pos hk]
    rfl
  · rw [if_neg hk, if_neg hk]
    rfl

lemma filterMap_zip_eq_range {α β γ : Type} (f : α × β → Option γ) :
    ∀ (u : List α) (v : List β) (du : α) (dv : β), u.length = v.length →
      (u.zip v).filterMap f
        = (List.range u.length).filterMap (fun t => f (u.getD t du, v.getD t dv)) := by
  intro u
  induction u with
  | nil =>
    intro v du dv h
    simp
  | cons a u' ih =>
    intro v du dv h
    cases v with
    | nil => simp at h
    | cons b v' =>
      have h' : u'.length = v'.length := by simpa using h
      simp only [List.zip_cons_cons, List.length_cons]
      rw [List.range_succ_eq_map, List.filterMap_cons, List.filterMap_cons,
        List.filterMap_map]
      have hfun : ((fun t => f ((a :: u').getD t du, (b :: v').getD t dv)) ∘ Nat.succ)
          = fun t => f (u'.getD t du, v'.getD t dv) := by
        funext t
        simp [Function.comp, List.getD_cons_succ]
      simp only [List.getD_cons_zero]
      rw [hfun]
      cases hfa : f (a, b) with
      | none => exact ih v' du dv h'
      | some c => rw [ih v' du dv h']

lemma filterMap_congr_mem {α β : Type} {f g : α → Option β} :
    ∀ {l : List α}, (∀ a ∈ l, f a = g a) → l.filterMap f = l.filterMap g := by
  intro l
  induction l with
  | nil => intro _; rfl
  | cons a as ih =>
    intro h
    rw [List.filterMap_cons, List.filterMap_cons, h a (List.mem_cons_self a as),
      ih (fun x hx => h x (List.mem_cons_of_mem a hx))]

/-- C2: on one (date-ascending) ticker partition, `price_change` at
position `t` is `price[t]/price[t - price_change_lag] - 1` and NaN for the
first `price_change_lag` positions, `sentiment_lagged` at `t` is
`sentiment[t - sentiment_lag]` and NaN for the first `sentiment_lag`
positions, and the paired observations given to the correlation are
exactly those positions where both are defined. -/
theorem lagged_features_formula (g : List Row) (sLag pLag : Nat)
    (hp : 1 ≤ pLag) :
    (∀ t, t < g.length →
      ((pctChange pLag (g.map Row.adj_close)).getD t none
        = if pLag ≤ t then
            some ((g.map Row.adj_close).getD t 0
              / (g.map Row.adj_close).getD (t - pLag) 0 - 1)
          else none)
      ∧ ((shiftList sLag (g.map Row.sentiment_score)).getD t none
        = if sLag ≤ t then some ((g.map Row.sentiment_score).getD (t - sLag) 0)
          else none))
    ∧ laggedPairs g sLag pLag
      = (List.range g.length).filterMap (fun t =>
          if sLag ≤ t ∧ pLag ≤ t then
            some ((g.map Row.sentiment_score).getD (t - sLag) 0,
              (g.map Row.adj_close).getD t 0
                / (g.map Row.adj_close).getD (t - pLag) 0 - 1)
          else none) := by
  constructor
  · intro t ht
    have ht' : t < (g.map Row.adj_close).length := by rw [List.length_map]; exact ht
    have ht'' : t < (g.map Row.sentiment_score).length := by
      rw [List.length_map]; exact ht
    exact ⟨getD_pctChange pLag _ t ht', getD_shiftList sLag _ t ht''⟩
  · unfold laggedPairs featureRows
    have hlen2 : (shiftList sLag (g.map Row.sentiment_score)).length
        = (pctChange pLag (g.map Row.adj_close)).length := by
      rw [length_shiftList, length_pctChange, List.length_map, List.length_map]
    rw [filterMap_zip_eq_range _ _ _ none none hlen2]
    have hlen3 : (shiftList sLag (g.map Row.sentiment_score)).length = g.length := by
      rw [length_shiftList, List.length_map]
    rw [hlen3]
    apply filterMap_congr_mem
    intro t htmem
    have ht : t < g.length := List.mem_range.mp htmem
    have ht' : t < (g.map Row.adj_close).length := by rw [List.length_map]; exact ht
    have ht'' : t < (g.map Row.sentiment_score).length := by
      rw [List.length_map]; exact ht
    rw [getD_pctChange pLag _ t ht', getD_shiftList sLag _ t ht'']
    by_cases hs : sLag ≤ t <;> by_cases hpc : pLag ≤ t
    · rw [if_pos hs, if_pos hpc, if_pos ⟨hs, hpc⟩]
    · rw [if_pos hs, if_neg hpc, if_neg (by tauto)]
    · rw [if_neg hs, if_pos hpc, if_neg (by tauto)]
    · rw [if_neg hs, if_neg hpc, if_neg (by tauto)]

theorem lagged_features_formula_witness :
    ((∀ t, t < ([⟨"A", 0, 1, 0⟩] : List Row).length →
      ((pctChange 1 (([⟨"A", 0, 1, 0⟩] : List Row).map Row.adj_close)).getD t none
        = if 1 ≤ t then
            some ((([⟨"A", 0, 1, 0⟩] : List Row).map Row.adj_close).getD t 0
              / (([⟨"A", 0, 1, 0⟩] : List Row).map Row.adj_close).getD (t - 1) 0 - 1)
          else none)
      ∧ ((shiftList 1 (([⟨"A", 0, 1, 0⟩] : List Row).map Row.sentiment_score)).getD t none
        = if 1 ≤ t then
            some ((([⟨"A", 0, 1, 0⟩] : List Row).map Row.sentiment_score).getD (t - 1) 0)
          else none))
    ∧ laggedPairs ([⟨"A", 0, 1, 0⟩] : List Row) 1 1
      = (List.range ([⟨"A", 0, 1, 0⟩] : List Row).length).filterMap (fun t =>
          if 1 ≤ t ∧ 1 ≤ t then
            some ((([⟨"A", 0, 1, 0⟩] : List Row).map Row.sentiment_score).getD (t - 1) 0,
              (([⟨"A", 0, 1, 0⟩] : List Row).map Row.adj_close).getD t 0
                / (([⟨"A", 0, 1, 0⟩] : List Row).map Row.adj_close).getD (t - 1) 0 - 1)
          else none)) :=
  lagged_features_formula ([⟨"A", 0, 1, 0⟩] : List Row) 1 1 (by decide)

lemma lookup_map_pair {β : Type} (f : String → β) :
    ∀ (l : List String) (tk : String), tk ∈ l →
      List.lookup tk (l.map (fun t => (t, f t))) = some (f tk) := by
  intro l
  induction l with
  | nil => intro tk h; simp at h
  | cons a as ih =>
    intro tk h
    rw [List.map_cons, List.lookup_cons]
    by_cases he : tk = a
    · subst he
      simp
    · have hne : (tk == a) = false := beq_eq_false_iff_ne.mpr he
      simp only [hne]
      refine ih tk ?_
      rcases List.mem_cons.mp h with h1 | h1
      · exact absurd h1 he
      · exact h1

/-- C1: when a ticker's paired (lagged-sentiment, price-change)
observations number fewer than 2, or either paired series has zero
(sample) variance, the grouped correlation maps that ticker to the NaN
marker `none` — a value distinct from every number, in particular from 0 —
and the computation is total (no exception). -/
theorem degenerate_correlation_is_nan (df : List Row) (sLag pLag : Nat)
    (tk : String)
    (htk : tk ∈ ((sortRows df).map Row.ticker).dedup)
    (hdeg :
      (laggedPairs ((sortRows df).filter (fun r => r.ticker == tk)) sLag pLag).length < 2
      ∨ svar ((laggedPairs ((sortRows df).filter (fun r => r.ticker == tk)) sLag pLag).map Prod.fst) = 0
      ∨ svar ((laggedPairs ((sortRows df).filter (fun r => r.ticker == tk)) sLag pLag).map Prod.snd) = 0) :
    List.lookup tk (tickerCorrelations df sLag pLag) = some none := by
  show List.lookup tk
      (((sortRows df).map Row.ticker).dedup.map (fun t =>
        (t, pearson (laggedPairs ((sortRows df).filter (fun r => r.ticker == t)) sLag pLag))))
      = some none
  rw [lookup_map_pair _ _ tk htk]
  congr 1
  unfold pearson
  by_cases hl :
      (laggedPairs ((sortRows df).filter (fun r => r.ticker == tk)) sLag pLag).length < 2
  · rw [if_pos hl]
  · rcases hdeg with h | h | h
    · exact absurd h hl
    · rw [if_neg hl, if_pos (Or.inl h)]
    · rw [if_neg hl, if_pos (Or.inr h)]

theorem degenerate_correlation_is_nan_witness :
    List.lookup "A" (tickerCorrelations [⟨"A", 0, 1, 0⟩] 1 1) = some none :=
  degenerate_correlation_is_nan [⟨"A", 0, 1, 0⟩] 1 1 "A" (by decide)
    (Or.inl (by decide))


lemma charsLt_cons (a b : Char) (as bs : List Char) :
    charsLt (a :: as) (b :: bs)
      = if a.toNat < b.toNat then true
        else if b.toNat < a.toNat then false
        else charsLt as bs := rfl

lemma charsLt_irrefl : ∀ l : List Char, charsLt l l = false := by
  intro l
  induction l with
  | nil => rfl
  | cons a as ih =>
    rw [charsLt_cons, if_neg (Nat.lt_irrefl _), if_neg (Nat.lt_irrefl _), ih]

lemma charsLt_trans :
    ∀ x y z : List Char, charsLt x y = true → charsLt y z = true →
      charsLt x z = true := by
  intro x
  induction x with
  | nil =>
    intro y z hxy hyz
    cases y with
    | nil => simp [charsLt] at hxy
    | cons b bs =>
      cases z with
      | nil => simp [charsLt] at hyz
      | cons c cs => rfl
  | cons a as ih =>
    intro y z hxy hyz
    cases y with
    | nil => simp [charsLt] at hxy
    | cons b bs =>
      cases z with
      | nil => simp [charsLt] at hyz
      | cons c cs =>
        rw [charsLt_cons] at hxy hyz ⊢
        by_cases hab : a.toNat < b.toNat
        · by_cases hbc : b.toNat < c.toNat
          · rw [if_pos (by omega)]
          · rw [if_neg hbc] at hyz
            by_cases hcb : c.toNat < b.toNat
            · rw [if_pos hcb] at hyz; exact absurd hyz (by simp)
            · rw [if_pos (by omega)]
        · rw [if_neg hab] at hxy
          by_cases hba : b.toNat < a.toNat
          · rw [if_pos hba] at hxy; exact absurd hxy (by simp)
          · rw [if_neg hba] at hxy
            by_cases hbc : b.toNat < c.toNat
            · rw [if_pos (by omega)]
            · rw [if_neg hbc] at hyz
              by_cases hcb : c.toNat < b.toNat
              · rw [if_pos hcb] at hyz; exact absurd hyz (by simp)
              · rw [if_neg hcb] at hyz
                rw [if_neg (by omega), if_neg (by omega)]
                exact ih bs cs hxy hyz

lemma charsLt_conn :
    ∀ x y : List Char, charsLt x y = false → charsLt y x = false → x = y := by
  intro x
  induction x with
  | nil =>
    intro y hxy _
    cases y with
    | nil => rfl
    | cons b bs => simp [charsLt] at hxy
  | cons a as ih =>
    intro y hxy hyx
    cases y with
    | nil => simp [charsLt] at hyx
    | cons b bs =>
      rw [charsLt_cons] at hxy hyx
      by_cases hab : a.toNat < b.toNat
      · rw [if_pos hab] at hxy; exact absurd hxy (by simp)
      · by_cases hba : b.toNat < a.toNat
        · rw [if_pos hba] at hyx; exact absurd hyx (by simp)
        · rw [if_neg hab, if_neg hba] at hxy
          rw [if_neg hba, if_neg hab] at hyx
          have hchar : a = b := by
            have hn : a.toNat = b.toNat := by omega
            exact Char.ext (UInt32.ext hn)
          rw [hchar, ih bs hxy hyx]

lemma strLt_trans {a b c : String} (h1 : strLt a b = true)
    (h2 : strLt b c = true) : strLt a c = true :=
  charsLt_trans _ _ _ h1 h2

lemma strLt_irrefl (a : String) : strLt a a = false := charsLt_irrefl _

lemma strLt_conn {a b : String} (h1 : strLt a b = false)
    (h2 : strLt b a = false) : a = b :=
  String.ext (charsLt_conn _ _ h1 h2)

instance : IsTrans Row rowLE := ⟨by
  intro a b c hab hbc
  rcases hab with h1 | ⟨he1, hd1⟩ <;> rcases hbc with h2 | ⟨he2, hd2⟩
  · exact Or.inl (strLt_trans h1 h2)
  · exact Or.inl (he2 ▸ h1)
  · exact Or.inl (he1 ▸ h2)
  · exact Or.inr ⟨he1.trans he2, le_trans hd1 hd2⟩⟩

instance : IsTotal Row rowLE := ⟨by
  intro a b
  by_cases h1 : strLt a.ticker b.ticker = true
  · exact Or.inl (Or.inl h1)
  · by_cases h2 : strLt b.ticker a.ticker = true
    · exact Or.inr (Or.inl h2)
    · have he : a.ticker = b.ticker :=
        strLt_conn (Bool.eq_false_iff.mpr h1) (Bool.eq_false_iff.mpr h2)
      rcases le_total a.date b.date with hd | hd
      · exact Or.inl (Or.inr ⟨he, hd⟩)
      · exact Or.inr (Or.inr ⟨he.symm, hd⟩)⟩

instance : IsAntisymm Row rowLT := ⟨by
  intro a b hab hba
  exfalso
  rcases hab with h1 | ⟨he1, hd1⟩ <;> rcases hba with h2 | ⟨he2, hd2⟩
  · exact absurd (strLt_trans h1 h2) (by rw [strLt_irrefl]; simp)
  · rw [he2] at h1
    exact absurd h1 (by rw [strLt_irrefl]; simp)
  · rw [he1] at h2
    exact absurd h2 (by rw [strLt_irrefl]; simp)
  · exact absurd (hd1.trans hd2) (lt_irrefl _)⟩

lemma sorted_rowLT_of_key_nodup (l : List Row) (hs : List.Sorted rowLE l)
    (hnd : (l.map (fun r => (r.ticker, r.date))).Nodup) :
    List.Sorted rowLT l := by
  have hpw : l.Pairwise (fun a b => (a.ticker, a.date) ≠ (b.ticker, b.date)) :=
    List.pairwise_map.mp hnd
  refine (List.Pairwise.and hs hpw).imp ?_
  intro a b hab
  rcases hab.1 with h1 | ⟨he, hd⟩
  · exact Or.inl h1
  · refine Or.inr ⟨he, lt_of_le_of_ne hd ?_⟩
    intro hdate
    exact hab.2 (by rw [he, hdate])

/-- C9: on a frame whose (ticker, date) keys are pairwise distinct, the
grouped correlation is invariant under any permutation of the input rows,
because the function re-sorts by (ticker, date) before building the lagged
columns. -/
theorem correlation_permutation_invariant (df df' : List Row)
    (sLag pLag : Nat) (hperm : df'.Perm df)
    (hnd : (df.map (fun r => (r.ticker, r.date))).Nodup) :
    tickerCorrelations df' sLag pLag = tickerCorrelations df sLag pLag := by
  have hnd1 : ((sortRows df).map (fun r => (r.ticker, r.date))).Nodup :=
    hnd.perm ((List.perm_insertionSort rowLE df).map _).symm
  have hnd2 : ((sortRows df').map (fun r => (r.ticker, r.date))).Nodup := by
    have hdf' : (df'.map (fun r => (r.ticker, r.date))).Nodup :=
      hnd.perm (hperm.map _).symm
    exact hdf'.perm ((List.perm_insertionSort rowLE df').map _).symm
  have hsort : sortRows df' = sortRows df :=
    List.eq_of_perm_of_sorted
      ((List.perm_insertionSort rowLE df').trans
        (hperm.trans (List.perm_insertionSort rowLE df).symm))
      (sorted_rowLT_of_key_nodup _ (List.sorted_insertionSort _ _) hnd2)
      (sorted_rowLT_of_key_nodup _ (List.sorted_insertionSort _ _) hnd1)
  unfold tickerCorrelations
  rw [hsort]

theorem correlation_permutation_invariant_witness :
    tickerCorrelations [⟨"A", 1, 2, 0⟩, ⟨"A", 0, 1, 0⟩] 1 1
      = tickerCorrelations [⟨"A", 0, 1, 0⟩, ⟨"A", 1, 2, 0⟩] 1 1 :=
  correlation_permutation_invariant
    [⟨"A", 0, 1, 0⟩, ⟨"A", 1, 2, 0⟩] [⟨"A", 1, 2, 0⟩, ⟨"A", 0, 1, 0⟩] 1 1
    (List.Perm.swap (⟨"A", 0, 1, 0⟩ : Row) (⟨"A", 1, 2, 0⟩ : Row) [])
    (by decide)

/-- C8: `calculate_sentiment_price_correlation` rebinds its local `df` to a
freshly allocated copy (line 40) before attaching the derived columns, so
the caller's DataFrame object — its rows and all its columns — is
byte-for-byte unchanged by the call: the heap cell the caller holds is the
same frame after the body runs. -/
theorem correlation_leaves_caller_frame_unchanged (s : Heap) (p : Nat)
    (sLag pLag : Nat) (hp : p < s.length) :
    (corrBody s p sLag pLag).1.getD p emptyFrame = s.getD p emptyFrame := by
  unfold corrBody
  simp only
  rw [List.getD_eq_getElem?_getD, List.getElem?_set]
  rw [if_neg (by omega)]
  rw [List.getElem?_set]
  rw [if_neg (by omega)]
  rw [List.getElem?_append, if_pos hp]
  rw [List.getD_eq_getElem?_getD]

theorem correlation_leaves_caller_frame_unchanged_witness :
    (corrBody [emptyFrame] 0 1 1).1.getD 0 emptyFrame
      = ([emptyFrame] : Heap).getD 0 emptyFrame :=
  correlation_leaves_caller_frame_unchanged [emptyFrame] 0 1 1 (by decide)
